import Mathlib

/-!
Verification development for the multi-agent code-generation pipeline
(`llm_client.py`, `tools.py`, `agents.py`, `orchestrator.py`).

The Python sources are shallowly embedded: text is `List Char` (Python `str`
is a sequence of unicode code points), dictionaries with fixed shapes are
structures with `Option` fields for keys that may be absent, fallible code
returns `Except PyErr`, and external collaborators (the LLM backend, the
shell) are oracle parameters.
-/

/- ### Python-style string primitives over `List Char` -/

/-- Whitespace characters recognised by `json` and by `str.strip`
(the claims only exercise the ASCII subset). -/
def isWs (c : Char) : Bool := c = ' ' || c = '\t' || c = '\n' || c = '\r'

/-- The backtick character (written via its code point). -/
def btick : Char := Char.ofNat 96

/-- Left curly brace character. -/
def lbraceC : Char := Char.ofNat 123

/-- Right curly brace character. -/
def rbraceC : Char := Char.ofNat 125

/-- Index of the first occurrence of `pat` in `s`, like Python `str.find`
(but `Option`-valued; `none` plays the role of `-1`). -/
def findSub (pat : List Char) : List Char → Option Nat
  | [] => if pat.isEmpty then some 0 else none
  | c :: rest =>
    if pat.isPrefixOf (c :: rest) then some 0
    else (findSub pat rest).map (· + 1)

/-- Python `pat in s` substring test. -/
def hasSub (pat s : List Char) : Bool := (findSub pat s).isSome

/-- Python `str.strip()`: drop whitespace from both ends. -/
def pyStrip (s : List Char) : List Char := (s.dropWhile isWs).rdropWhile isWs

theorem findSub_eq_some_iff {pat s : List Char} {i : Nat} :
    findSub pat s = some i ↔ (pat <+: s.drop i ∧ ∀ j, j < i → ¬ pat <+: s.drop j) := by
  induction s generalizing i with
  | nil =>
    by_cases hp : pat = []
    · subst hp
      simp only [findSub, List.isEmpty_nil, if_pos rfl, List.drop_nil]
      constructor
      · rintro h
        cases h
        exact ⟨List.nil_prefix, fun j hj => absurd hj (Nat.not_lt_zero j)⟩
      · rintro ⟨-, h2⟩
        have hi : i = 0 := by
          by_contra hne
          exact h2 0 (Nat.pos_of_ne_zero hne) List.nil_prefix
        subst hi
        simp
    · simp only [findSub, List.isEmpty_iff, if_neg hp, List.drop_nil]
      constructor
      · intro h; cases h
      · rintro ⟨h1, -⟩
        exact absurd (List.prefix_nil.mp h1) hp
  | cons c rest ih =>
    by_cases hp : pat.isPrefixOf (c :: rest)
    · rw [List.isPrefixOf_iff_prefix] at hp
      simp only [findSub, if_pos (List.isPrefixOf_iff_prefix.mpr hp)]
      constructor
      · rintro h
        cases h
        exact ⟨hp, fun j hj => absurd hj (Nat.not_lt_zero j)⟩
      · rintro ⟨-, h2⟩
        rcases Nat.eq_zero_or_pos i with rfl | hpos
        · rfl
        · exact absurd hp (h2 0 hpos)
    · have hp' : ¬ pat <+: (c :: rest) := fun h =>
        hp (List.isPrefixOf_iff_prefix.mpr h)
      simp only [findSub, if_neg hp, Option.map_eq_some']
      constructor
      · rintro ⟨i', hfind, rfl⟩
        rcases (ih (i := i')).mp hfind with ⟨h1, h2⟩
        refine ⟨h1, ?_⟩
        intro j hj
        cases j with
        | zero => exact hp'
        | succ j' => exact h2 j' (by omega)
      · rintro ⟨h1, h2⟩
        cases i with
        | zero => exact absurd h1 hp'
        | succ i' =>
          refine ⟨i', (ih (i := i')).mpr ⟨h1, ?_⟩, rfl⟩
          intro j hj
          exact h2 (j + 1) (by omega)

theorem findSub_eq_none_iff {pat s : List Char} :
    findSub pat s = none ↔ ∀ j, ¬ pat <+: s.drop j := by
  induction s with
  | nil =>
    by_cases hp : pat = []
    · subst hp
      simp only [findSub, List.isEmpty_nil, if_pos rfl, List.drop_nil]
      constructor
      · intro h; cases h
      · intro h
        exact absurd List.nil_prefix (h 0)
    · simp only [findSub, List.isEmpty_iff, if_neg hp, List.drop_nil, true_iff]
      exact fun j h => hp (List.prefix_nil.mp h)
  | cons c rest ih =>
    by_cases hp : pat.isPrefixOf (c :: rest)
    · simp only [findSub, if_pos hp]
      constructor
      · intro h; cases h
      · intro h
        exact absurd (List.isPrefixOf_iff_prefix.mp hp) (h 0)
    · simp only [findSub, if_neg hp, Option.map_eq_none']
      rw [ih]
      constructor
      · intro h j
        cases j with
        | zero =>
          exact fun hx => hp (List.isPrefixOf_iff_prefix.mpr hx)
        | succ j' => exact h j'
      · intro h j
        exact h (j + 1)

theorem hasSub_eq_true_iff {pat s : List Char} :
    hasSub pat s = true ↔ ∃ j, pat <+: s.drop j := by
  rw [hasSub, Option.isSome_iff_ne_none]
  constructor
  · intro h
    rcases Option.ne_none_iff_exists'.mp h with ⟨i, hi⟩
    exact ⟨i, (findSub_eq_some_iff.mp hi).1⟩
  · rintro ⟨j, hj⟩ hnone
    exact findSub_eq_none_iff.mp hnone j hj

theorem hasSub_eq_false_iff {pat s : List Char} :
    hasSub pat s = false ↔ ∀ j, ¬ pat <+: s.drop j := by
  rw [← findSub_eq_none_iff, hasSub]
  cases findSub pat s <;> simp

/-- A singleton pattern is a prefix exactly when it is the head. -/
theorem single_prefix_iff {c : Char} {l : List Char} :
    [c] <+: l ↔ l.head? = some c := by
  cases l with
  | nil => simp
  | cons x xs =>
    constructor
    · rintro ⟨t, ht⟩
      cases ht; rfl
    · intro h
      cases h
      exact ⟨xs, rfl⟩

theorem prefix_of_prefix_append_of_le {pat xs ys : List Char}
    (h : pat <+: xs ++ ys) (hle : pat.length ≤ xs.length) : pat <+: xs := by
  rw [List.prefix_iff_eq_take] at h
  rw [List.take_append_eq_append_take, Nat.sub_eq_zero_of_le hle,
    List.take_zero, List.append_nil] at h
  exact h ▸ List.take_prefix _ _

theorem hasSub_append_left {pat xs ys : List Char}
    (h : hasSub pat xs = true) : hasSub pat (xs ++ ys) = true := by
  rw [hasSub_eq_true_iff] at h ⊢
  rcases h with ⟨j, hj⟩
  exact ⟨j, by
    rw [List.drop_append_eq_append_drop]
    exact hj.trans (List.prefix_append _ _)⟩

/-- Monotonicity: an occurrence of the longer pattern yields one of any
prefix of it. -/
theorem hasSub_of_hasSub_of_prefix {p q s : List Char}
    (hpq : p <+: q) (h : hasSub q s = true) : hasSub p s = true := by
  rw [hasSub_eq_true_iff] at h ⊢
  rcases h with ⟨j, hj⟩
  exact ⟨j, hpq.trans hj⟩

/-- Python `str.find`: index of first occurrence, `-1` when absent. -/
def pyFind (pat s : List Char) : Int :=
  match findSub pat s with
  | some i => i
  | none => -1

/-- Normalisation of one Python slice index against a length. -/
def sliceIdx (n : Nat) (i : Int) : Nat :=
  if i < 0 then (if i + n < 0 then 0 else (i + n).toNat) else min i.toNat n

/-- Python slice `s[a:b]` (step 1), with Python's negative-index and
clamping rules. -/
def pySlice (s : List Char) (a b : Int) : List Char :=
  (s.take (sliceIdx s.length b)).drop (sliceIdx s.length a)

/-- Python `str.find(pat, start)`: the start position follows slice
normalisation; the returned index is absolute. -/
def pyFindFrom (pat s : List Char) (start : Int) : Int :=
  let st := sliceIdx s.length start
  match findSub pat (s.drop st) with
  | some i => ((st + i : Nat) : Int)
  | none => -1

/-- Python `str.rfind`: start index of the last occurrence, `-1` when
absent, computed on the reversed string. -/
def pyRfind (pat s : List Char) : Int :=
  match findSub pat.reverse s.reverse with
  | some i => (s.length : Int) - pat.length - i
  | none => -1

/- ### JSON values and a model of `json.loads` -/

/-- JSON values as produced by `json.loads`. Numbers are kept as their
source lexeme (the claims never depend on numeric conversion). -/
inductive Json where
  | null : Json
  | bool (b : Bool) : Json
  | num (lexeme : List Char) : Json
  | str (s : List Char) : Json
  | arr (items : List Json) : Json
  | obj (members : List (List Char × Json)) : Json

def hexVal (c : Char) : Option Nat :=
  if '0' ≤ c ∧ c ≤ '9' then some (c.toNat - 48)
  else if 'a' ≤ c ∧ c ≤ 'f' then some (c.toNat - 87)
  else if 'A' ≤ c ∧ c ≤ 'F' then some (c.toNat - 55)
  else none

def escChar (c : Char) : Option Char :=
  if c = '"' then some '"'
  else if c = '\\' then some '\\'
  else if c = '/' then some '/'
  else if c = 'b' then some (Char.ofNat 8)
  else if c = 'f' then some (Char.ofNat 12)
  else if c = 'n' then some '\n'
  else if c = 'r' then some '\r'
  else if c = 't' then some '\t'
  else none

/-- Body of a JSON string literal, after the opening quote. `json.loads`
in its default strict mode rejects raw control characters (code points
below 32) inside string literals. Surrogate-pair recombination of
`\uXXXX` escapes is not modelled; each escape decodes to one code point. -/
def parseJStr : Nat → List Char → Option (List Char × List Char)
  | 0, _ => none
  | _ + 1, [] => none
  | fuel + 1, c :: rest =>
    if c = '"' then some ([], rest)
    else if c = '\\' then
      match rest with
      | [] => none
      | e :: rest2 =>
        if e = 'u' then
          match rest2 with
          | h1 :: h2 :: h3 :: h4 :: rest3 =>
            match hexVal h1, hexVal h2, hexVal h3, hexVal h4 with
            | some a, some b, some c2, some d =>
              (parseJStr fuel rest3).map fun p =>
                (Char.ofNat (((a * 16 + b) * 16 + c2) * 16 + d) :: p.1, p.2)
            | _, _, _, _ => none
          | _ => none
        else
          match escChar e with
          | some d => (parseJStr fuel rest2).map fun p => (d :: p.1, p.2)
          | none => none
    else if c.toNat < 32 then none
    else (parseJStr fuel rest).map fun p => (c :: p.1, p.2)

def isDigitC (c : Char) : Bool := '0' ≤ c && c ≤ '9'

/-- Integer part of the RFC 8259 number grammar: `0 | [1-9][0-9]*`
with optional leading minus handled by the caller. -/
def lexInt : List Char → Option (List Char × List Char)
  | [] => none
  | c :: rest =>
    if c = '0' then some ([c], rest)
    else if isDigitC c then
      some (c :: rest.takeWhile isDigitC, rest.dropWhile isDigitC)
    else none

/-- Optional fraction part `(. [0-9]+)?`. -/
def lexFrac (s : List Char) : List Char × List Char :=
  match s with
  | '.' :: rest =>
    let ds := rest.takeWhile isDigitC
    if ds.isEmpty then ([], s) else ('.' :: ds, rest.dropWhile isDigitC)
  | _ => ([], s)

/-- Optional exponent part `([eE][+-]?[0-9]+)?`. -/
def lexExp (s : List Char) : List Char × List Char :=
  match s with
  | e :: rest =>
    if e = 'e' || e = 'E' then
      match rest with
      | sgn :: rest2 =>
        if sgn = '+' || sgn = '-' then
          let ds := rest2.takeWhile isDigitC
          if ds.isEmpty then ([], s)
          else (e :: sgn :: ds, rest2.dropWhile isDigitC)
        else
          let ds := rest.takeWhile isDigitC
          if ds.isEmpty then ([], s) else (e :: ds, rest.dropWhile isDigitC)
      | [] => ([], s)
    else ([], s)
  | [] => ([], s)

/-- A full JSON number lexeme `-? int frac? exp?`. -/
def lexNumber (s : List Char) : Option (List Char × List Char) :=
  let p := match s with
    | c :: rest => if c = '-' then (([c] : List Char), rest) else (([] : List Char), s)
    | [] => (([] : List Char), s)
  match lexInt p.2 with
  | none => none
  | some (ip, s2) =>
    let f := lexFrac s2
    let e := lexExp f.2
    some (p.1 ++ ip ++ f.1 ++ e.1, e.2)

mutual
/-- One JSON value by fuel-bounded recursive descent, following
`json.loads` (strict mode, and accepting the `NaN` / `Infinity` /
`-Infinity` constants that `json.loads` allows by default). -/
def parseVal (fuel : Nat) (s : List Char) : Option (Json × List Char) :=
  match fuel with
  | 0 => none
  | fuel' + 1 =>
    let s := s.dropWhile isWs
    match s with
    | [] => none
    | c :: rest =>
      if c = lbraceC then
        let s1 := rest.dropWhile isWs
        match s1 with
        | [] => none
        | d :: rest1 =>
          if d = rbraceC then some (.obj [], rest1)
          else
            match parseMembers fuel' s1 with
            | some (ms, rem) => some (.obj ms, rem)
            | none => none
      else if c = '[' then
        let s1 := rest.dropWhile isWs
        match s1 with
        | [] => none
        | d :: rest1 =>
          if d = ']' then some (.arr [], rest1)
          else
            match parseItems fuel' s1 with
            | some (xs, rem) => some (.arr xs, rem)
            | none => none
      else if c = '"' then
        (parseJStr (rest.length + 1) rest).map fun p => (.str p.1, p.2)
      else if ['t', 'r', 'u', 'e'].isPrefixOf s then some (.bool true, s.drop 4)
      else if ['f', 'a', 'l', 's', 'e'].isPrefixOf s then some (.bool false, s.drop 5)
      else if ['n', 'u', 'l', 'l'].isPrefixOf s then some (.null, s.drop 4)
      else if ['N', 'a', 'N'].isPrefixOf s then
        some (.num ['N', 'a', 'N'], s.drop 3)
      else if ['I', 'n', 'f', 'i', 'n', 'i', 't', 'y'].isPrefixOf s then
        some (.num (['I', 'n', 'f', 'i', 'n', 'i', 't', 'y']), s.drop 8)
      else if ['-', 'I', 'n', 'f', 'i', 'n', 'i', 't', 'y'].isPrefixOf s then
        some (.num (['-', 'I', 'n', 'f', 'i', 'n', 'i', 't', 'y']), s.drop 9)
      else (lexNumber s).map fun p => (.num p.1, p.2)

/-- Object members `"key": value (, "key": value)*` up to and including
the closing brace. Entered at the first key with whitespace skipped. -/
def parseMembers (fuel : Nat) (s : List Char) :
    Option (List (List Char × Json) × List Char) :=
  match fuel with
  | 0 => none
  | fuel' + 1 =>
    match s with
    | [] => none
    | c :: rest =>
      if c = '"' then
        match parseJStr (rest.length + 1) rest with
        | none => none
        | some (key, afterKey) =>
          match afterKey.dropWhile isWs with
          | ':' :: afterColon =>
            match parseVal fuel' afterColon with
            | none => none
            | some (v, afterVal) =>
              match afterVal.dropWhile isWs with
              | [] => none
              | sep :: afterSep =>
                if sep = ',' then
                  match parseMembers fuel' (afterSep.dropWhile isWs) with
                  | some (ms, rem) => some ((key, v) :: ms, rem)
                  | none => none
                else if sep = rbraceC then some ([(key, v)], afterSep)
                else none
          | _ => none
      else none

/-- Array items `value (, value)*` up to and including the closing
bracket. Entered at the first item with whitespace skipped. -/
def parseItems (fuel : Nat) (s : List Char) :
    Option (List Json × List Char) :=
  match fuel with
  | 0 => none
  | fuel' + 1 =>
    match parseVal fuel' s with
    | none => none
    | some (v, afterVal) =>
      match afterVal.dropWhile isWs with
      | [] => none
      | sep :: afterSep =>
        if sep = ',' then
          match parseItems fuel' afterSep with
          | some (xs, rem) => some (v :: xs, rem)
          | none => none
        else if sep = ']' then some ([v], afterSep)
        else none
end

/-- Model of `json.loads`: one value, then only trailing whitespace. -/
def jsonParse (s : List Char) : Option Json :=
  match parseVal (s.length + 1) s with
  | some (v, rest) => if (rest.dropWhile isWs).isEmpty then some v else none
  | none => none

/- ### Gateway tool-call argument handling (`llm_client.py` lines 80-109) -/

/-- The repair pass `arguments.replace('\n', '\\n').replace('\r', '\\r')`
(`llm_client.py` line 91). The two sequential `str.replace` calls equal
this single character-wise pass because the first replacement introduces
no carriage returns. -/
def repairArgs : List Char → List Char
  | [] => []
  | c :: rest =>
    if c = '\n' then '\\' :: 'n' :: repairArgs rest
    else if c = '\r' then '\\' :: 'r' :: repairArgs rest
    else c :: repairArgs rest

/-- `Corrupt t c` holds when `c` is obtained from `t` by replacing some of
the two-character escape sequences `\n` / `\r` with raw newline /
carriage-return characters; it formalises an arguments string "whose only
corruption is raw newline or carriage-return characters" relative to an
intact original `t`. -/
inductive Corrupt : List Char → List Char → Prop where
  | nil : Corrupt [] []
  | keep (c : Char) {t c' : List Char} : Corrupt t c' → Corrupt (c :: t) (c :: c')
  | lf {t c' : List Char} : Corrupt t c' → Corrupt ('\\' :: 'n' :: t) ('\n' :: c')
  | cr {t c' : List Char} : Corrupt t c' → Corrupt ('\\' :: 'r' :: t) ('\r' :: c')

/-- The original string contains no raw newline or carriage-return. -/
def noRawNL (t : List Char) : Prop := ∀ c ∈ t, c ≠ '\n' ∧ c ≠ '\r'

/-- When the intact original has no raw newline/carriage-return of its
own, the gateway's repair pass inverts the corruption exactly. -/
theorem repairArgs_of_corrupt {t c : List Char} (hnl : noRawNL t)
    (h : Corrupt t c) : repairArgs c = t := by
  induction h with
  | nil => rfl
  | keep x h ih =>
    have hx := hnl x (List.mem_cons_self x _)
    have ht : noRawNL _ := fun a ha => hnl a (List.mem_cons_of_mem _ ha)
    simp only [repairArgs, if_neg hx.1, if_neg hx.2, ih ht]
  | lf h ih =>
    have ht : noRawNL _ := fun a ha =>
      hnl a (List.mem_cons_of_mem _ (List.mem_cons_of_mem _ ha))
    simp [repairArgs, ih ht]
  | cr h ih =>
    have ht : noRawNL _ := fun a ha =>
      hnl a (List.mem_cons_of_mem _ (List.mem_cons_of_mem _ ha))
    simp [repairArgs, ih ht]

/-- A tool call as it arrives from the backend: `arguments` is still the
raw JSON-encoded string. -/
structure RawToolCall where
  id : String
  type : String
  name : String
  arguments : List Char

/-- A tool call after `chat_completion` decoded its arguments. -/
structure ParsedToolCall where
  id : String
  type : String
  name : String
  arguments : Json

/-- Per-call argument handling of `LLMClient.chat_completion`
(`llm_client.py` lines 83-97): parse, on failure repair once and
re-parse, on failure again drop the call (`continue`). -/
def processToolCall (tc : RawToolCall) : Option ParsedToolCall :=
  match jsonParse tc.arguments with
  | some v => some ⟨tc.id, tc.type, tc.name, v⟩
  | none =>
    match jsonParse (repairArgs tc.arguments) with
    | some v => some ⟨tc.id, tc.type, tc.name, v⟩
    | none => none

/-- The `tool_calls` list assembled by `chat_completion` (lines 81-109):
every call of the response is processed; dropped calls leave the rest
intact. -/
def parseToolCalls (tcs : List RawToolCall) : List ParsedToolCall :=
  tcs.filterMap processToolCall

/-- Intact arguments string `{"a":"x\ny",\n"b":1}`: the first `\n` is the
two-character escape inside a string literal, the second is a raw newline
serving as legal inter-token whitespace. -/
def c2tWs : List Char :=
  [lbraceC, '"', 'a', '"', ':', '"', 'x', '\\', 'n', 'y', '"', ',',
   '\n', '"', 'b', '"', ':', '1', rbraceC]

/-- The same string with the in-string escape corrupted to a raw newline:
its only corruption is a raw newline character. -/
def c2cWs : List Char :=
  [lbraceC, '"', 'a', '"', ':', '"', 'x', '\n', 'y', '"', ',',
   '\n', '"', 'b', '"', ':', '1', rbraceC]

/-- C2 counterexample: `c2cWs` fails to parse and its only corruption is a
raw newline (the intact original `c2tWs` parses), yet the single repair
pass also fails — the raw newline that was legal inter-token whitespace
is escaped into `\n` outside any string literal — so `chat_completion`
drops the call instead of keeping it. -/
theorem chat_completion_repair_counterexample :
    (jsonParse c2tWs).isSome = true ∧ Corrupt c2tWs c2cWs ∧
    jsonParse c2cWs = none ∧ jsonParse (repairArgs c2cWs) = none ∧
    processToolCall ⟨"call_1", "function", "create_file", c2cWs⟩ = none := by
  refine ⟨rfl, ?_, rfl, rfl, rfl⟩
  repeat first
  | exact Corrupt.nil
  | apply Corrupt.lf
  | apply Corrupt.cr
  | apply Corrupt.keep

/-- C2 (amended): for an arguments string that fails JSON parsing and
whose only corruption is raw newline/carriage-return characters standing
for corrupted escapes of an original that contains no raw newline or
carriage return of its own, the repair pass yields a valid parse and the
call is kept with the original's parsed arguments; and any call for which
both parses fail is dropped while the remaining calls of the same
response are still returned. -/
theorem chat_completion_repair_amended {t c : List Char} {v : Json}
    (hnl : noRawNL t) (ht : jsonParse t = some v) (hcor : Corrupt t c)
    (hfail : jsonParse c = none) (id ty nm : String)
    (pre post : List RawToolCall) :
    processToolCall ⟨id, ty, nm, c⟩ = some ⟨id, ty, nm, v⟩ ∧
    parseToolCalls (pre ++ ⟨id, ty, nm, c⟩ :: post) =
      parseToolCalls pre ++ ⟨id, ty, nm, v⟩ :: parseToolCalls post ∧
    (∀ bad : RawToolCall, processToolCall bad = none →
      parseToolCalls (pre ++ bad :: post) =
        parseToolCalls pre ++ parseToolCalls post) := by
  have hrep : repairArgs c = t := repairArgs_of_corrupt hnl hcor
  have hproc : processToolCall ⟨id, ty, nm, c⟩ = some ⟨id, ty, nm, v⟩ := by
    simp only [processToolCall, hfail, hrep, ht]
  refine ⟨hproc, ?_, ?_⟩
  · simp [parseToolCalls, List.filterMap_append, List.filterMap_cons, hproc]
  · intro bad hbad
    simp [parseToolCalls, List.filterMap_append, List.filterMap_cons, hbad]

/-- Intact arguments string `{"a":"x\ny"}` with no raw newline. -/
def c2t0 : List Char :=
  [lbraceC, '"', 'a', '"', ':', '"', 'x', '\\', 'n', 'y', '"', rbraceC]

/-- Its corruption: the escape replaced by a raw newline. -/
def c2c0 : List Char :=
  [lbraceC, '"', 'a', '"', ':', '"', 'x', '\n', 'y', '"', rbraceC]

/-- The parsed value of `c2t0`. -/
def c2v0 : Json := Json.obj [(['a'], Json.str ['x', '\n', 'y'])]

theorem chat_completion_repair_amended_witness :
    processToolCall ⟨"c1", "function", "create_file", c2c0⟩ =
      some ⟨"c1", "function", "create_file", c2v0⟩ ∧
    parseToolCalls ([] ++ ⟨"c1", "function", "create_file", c2c0⟩ :: []) =
      parseToolCalls [] ++ ⟨"c1", "function", "create_file", c2v0⟩ :: parseToolCalls [] ∧
    (∀ bad : RawToolCall, processToolCall bad = none →
      parseToolCalls ([] ++ bad :: []) = parseToolCalls [] ++ parseToolCalls []) :=
  chat_completion_repair_amended (t := c2t0) (c := c2c0) (v := c2v0)
    (by unfold noRawNL c2t0; decide) rfl
    (by repeat first
        | exact Corrupt.nil
        | apply Corrupt.lf
        | apply Corrupt.cr
        | apply Corrupt.keep)
    rfl "c1" "function" "create_file" [] []

/- ### Structured-output extraction (`agents.py` lines 191-204; the
evaluator repeats the identical logic at lines 561-573) -/

/-- The labelled fence `"```json"`. -/
def fenceJson : List Char := [btick, btick, btick, 'j', 's', 'o', 'n']

/-- A bare fence `"```"`. -/
def fence3 : List Char := [btick, btick, btick]

/-- JSON-extraction policy of `ProjectPlanningAgent.execute`: a
`json`-labelled fenced block, else any fenced block, else the span from
the first `{` to the last `}` (inclusive); the result is stripped. -/
def extractJsonStr (content : List Char) : List Char :=
  if hasSub fenceJson content then
    let js : Int := pyFind fenceJson content + 7
    pyStrip (pySlice content js (pyFindFrom fence3 content js))
  else if hasSub fence3 content then
    let js : Int := pyFind fence3 content + 3
    pyStrip (pySlice content js (pyFindFrom fence3 content js))
  else
    pyStrip (pySlice content (pyFind [lbraceC] content)
      (pyRfind [rbraceC] content + 1))

/-- A response that is a single `json`-labelled fenced block holding
`inner`, and nothing else. -/
def fenceWrap (inner : List Char) : List Char :=
  fenceJson ++ '\n' :: inner ++ '\n' :: fence3

/-- The array payload `[1, 2]`. -/
def c7arr : List Char := ['[', '1', ',', ' ', '2', ']']

/-- C7 counterexample: for the fenced JSON block holding the array
`[1, 2]` the extraction differs from the unfenced payload — the fenced
path extracts the array (which parses), while the brace-scan path finds
no `{`/`}` and extracts the empty string (which fails to parse). -/
theorem extraction_fenced_counterexample :
    extractJsonStr (fenceWrap c7arr) ≠ extractJsonStr c7arr ∧
    (jsonParse (extractJsonStr (fenceWrap c7arr))).isSome = true ∧
    (jsonParse (extractJsonStr c7arr)).isSome = false := by
  refine ⟨by decide, rfl, rfl⟩

theorem cons_prefix_head {a : Char} {p l : List Char} (h : (a :: p) <+: l) :
    l.head? = some a := by
  rcases h with ⟨t, rfl⟩
  rfl

theorem findSub_append_shift {pat xs ys : List Char}
    (h : ∀ i, i < xs.length → ¬ pat <+: (xs.drop i ++ ys)) :
    findSub pat (xs ++ ys) = (findSub pat ys).map (· + xs.length) := by
  induction xs with
  | nil =>
    simp only [List.nil_append, List.length_nil]
    cases hy : findSub pat ys
    · simp [hy]
    · simp [hy]
  | cons x xs' ih =>
    have h0 : ¬ pat.isPrefixOf (x :: (xs' ++ ys)) := by
      intro hb
      exact h 0 (by simp) (by simpa using List.isPrefixOf_iff_prefix.mp hb)
    have hrest : ∀ i, i < xs'.length → ¬ pat <+: (xs'.drop i ++ ys) := by
      intro i hi
      have := h (i + 1) (by simp; omega)
      simpa using this
    rw [List.cons_append, findSub, if_neg h0, ih hrest]
    cases findSub pat ys
    · simp
    · simp
      omega

/-- No occurrence of a bare fence can start inside `'\n' :: inner ++ ['\n']`
when `inner` holds no fence: a candidate either lies inside `inner` or
runs into one of the newlines. -/
theorem fence3_no_occurrence {inner : List Char}
    (hnf : hasSub fence3 inner = false) :
    ∀ i, i < ('\n' :: inner ++ ['\n']).length →
      ¬ fence3 <+: (('\n' :: inner ++ ['\n']).drop i ++ fence3) := by
  rw [hasSub_eq_false_iff] at hnf
  have hbt : ∀ n, n < 3 → fence3[n]? = some btick := by
    intro n hn
    interval_cases n <;> rfl
  intro i hi hpre
  cases i with
  | zero =>
    have hh := cons_prefix_head (a := btick) (p := [btick, btick]) hpre
    simp at hh
    exact absurd hh (by decide)
  | succ k =>
    have hk : k < inner.length + 1 := by
      simp [List.length_append] at hi
      omega
    have hdrop : ('\n' :: inner ++ ['\n']).drop (k + 1) = inner.drop k ++ ['\n'] := by
      rw [List.cons_append, List.drop_succ_cons, List.drop_append_eq_append_drop]
      have h0 : k - inner.length = 0 := by omega
      rw [h0]
      rfl
    rw [hdrop, List.append_assoc] at hpre
    by_cases h3 : 3 ≤ (inner.drop k).length
    · exact hnf k (prefix_of_prefix_append_of_le hpre (by simpa [fence3] using h3))
    · have hlt : (inner.drop k).length < 3 := by omega
      rcases hpre with ⟨t, ht⟩
      have hf3 : fence3.length = 3 := rfl
      have h1 : (fence3 ++ t)[(inner.drop k).length]? = some btick := by
        rw [List.getElem?_append_left (by rw [hf3]; exact hlt)]
        exact hbt _ hlt
      have h2 : (inner.drop k ++ (['\n'] ++ fence3))[(inner.drop k).length]? =
          some '\n' := by
        rw [List.getElem?_append_right (Nat.le_refl _)]
        simp
      rw [ht] at h1
      rw [h1] at h2
      exact absurd (Option.some.inj h2) (by decide)

theorem pyStrip_cons_ws {a : Char} (ha : isWs a = true) (s : List Char) :
    pyStrip (a :: s) = pyStrip s := by
  simp [pyStrip, List.dropWhile_cons, ha]

theorem pyStrip_concat_ws {a : Char} (ha : isWs a = true) (s : List Char) :
    pyStrip (s ++ [a]) = pyStrip s := by
  rw [pyStrip, pyStrip, List.dropWhile_append]
  by_cases hd : (s.dropWhile isWs).isEmpty
  · rw [if_pos hd]
    rw [List.isEmpty_iff] at hd
    rw [hd]
    simp [List.dropWhile_cons, ha]
  · rw [if_neg hd]
    exact List.rdropWhile_concat_pos _ _ _ ha

/-- On a lone labelled fenced block the extraction yields the stripped
payload. -/
theorem extract_of_fenceWrap {inner : List Char}
    (hnf : hasSub fence3 inner = false) :
    extractJsonStr (fenceWrap inner) = pyStrip inner := by
  have hwpre : fenceJson <+: fenceWrap inner :=
    (List.prefix_append fenceJson ('\n' :: inner)).trans
      (List.prefix_append (fenceJson ++ ('\n' :: inner)) ('\n' :: fence3))
  have hfj : hasSub fenceJson (fenceWrap inner) = true := by
    rw [hasSub_eq_true_iff]
    exact ⟨0, by simpa using hwpre⟩
  have hfind0 : findSub fenceJson (fenceWrap inner) = some 0 := by
    rw [findSub_eq_some_iff]
    exact ⟨by simpa using hwpre, fun j hj => absurd hj (Nat.not_lt_zero j)⟩
  have hpf : pyFind fenceJson (fenceWrap inner) = 0 := by
    simp [pyFind, hfind0]
  have hlen : (fenceWrap inner).length = inner.length + 12 := by
    simp [fenceWrap, fenceJson, fence3]
  have hdrop7 : (fenceWrap inner).drop 7 = ('\n' :: inner ++ ['\n']) ++ fence3 := by
    have hw : fenceWrap inner = fenceJson ++ (('\n' :: inner ++ ['\n']) ++ fence3) := by
      simp [fenceWrap]
    rw [hw, show (7 : Nat) = fenceJson.length from rfl, List.drop_left]
  have hfind3 : findSub fence3 ((fenceWrap inner).drop 7) = some (inner.length + 2) := by
    rw [hdrop7, findSub_append_shift (fence3_no_occurrence hnf),
      show findSub fence3 fence3 = some 0 from rfl]
    simp
  have ha7 : sliceIdx (fenceWrap inner).length 7 = 7 := by
    rw [hlen]
    simp [sliceIdx]
  have hpff : pyFindFrom fence3 (fenceWrap inner) 7 = ((inner.length + 9 : Nat) : Int) := by
    simp only [pyFindFrom, ha7, hfind3]
    omega
  have hb9 : sliceIdx (fenceWrap inner).length ((inner.length + 9 : Nat) : Int) =
      inner.length + 9 := by
    rw [hlen, sliceIdx, if_neg (not_lt.mpr (Int.natCast_nonneg _))]
    simp
    omega
  have hslice : pySlice (fenceWrap inner) 7 ((inner.length + 9 : Nat) : Int) =
      '\n' :: inner ++ ['\n'] := by
    rw [pySlice, ha7, hb9]
    have htake : (fenceWrap inner).take (inner.length + 9) =
        fenceJson ++ ('\n' :: inner ++ ['\n']) := by
      have hw : fenceWrap inner = (fenceJson ++ ('\n' :: inner ++ ['\n'])) ++ fence3 := by
        simp [fenceWrap]
      rw [hw]
      refine List.take_left' ?_
      simp [fenceJson]
    rw [htake, show (7 : Nat) = fenceJson.length from rfl, List.drop_left]
  simp only [extractJsonStr, hfj, if_true]
  rw [hpf, zero_add, hpff, hslice]
  rw [show ('\n' :: inner ++ ['\n']) = '\n' :: (inner ++ ['\n']) from by simp]
  rw [pyStrip_cons_ws (by decide), pyStrip_concat_ws (by decide)]

theorem rdropWhileAppendRtakeWhile (p : Char → Bool) (l : List Char) :
    l.rdropWhile p ++ l.rtakeWhile p = l := by
  rw [List.rdropWhile, List.rtakeWhile, ← List.reverse_append,
    List.takeWhile_append_dropWhile, List.reverse_reverse]

/-- Leading whitespace of a string. -/
def wsLead (s : List Char) : List Char := s.takeWhile isWs

/-- Trailing whitespace left over once the stripped core is removed. -/
def wsTail (s : List Char) : List Char := (s.dropWhile isWs).rtakeWhile isWs

theorem strip_decomposition (s : List Char) :
    wsLead s ++ (pyStrip s ++ wsTail s) = s := by
  rw [wsLead, wsTail, pyStrip, rdropWhileAppendRtakeWhile,
    List.takeWhile_append_dropWhile]

theorem wsLead_ws {s : List Char} {c : Char} (hc : c ∈ wsLead s) :
    isWs c = true := List.mem_takeWhile_imp hc

theorem wsTail_ws {s : List Char} {c : Char} (hc : c ∈ wsTail s) :
    isWs c = true := List.mem_rtakeWhile_imp hc

/-- A string already free of leading/trailing whitespace strips to
itself; the instance needed here is braces at both ends. -/
theorem pyStrip_of_braces {st : List Char}
    (hhead : st.head? = some lbraceC) (hlast : st.getLast? = some rbraceC) :
    pyStrip st = st := by
  cases st with
  | nil => cases hhead
  | cons x xs =>
    have hx : x = lbraceC := Option.some.inj hhead
    subst hx
    have hdw : List.dropWhile isWs (lbraceC :: xs) = lbraceC :: xs := by
      rw [List.dropWhile_cons, if_neg (by decide)]
    rw [pyStrip, hdw]
    refine List.rdropWhile_eq_self_iff.mpr ?_
    intro hne
    have h1 := List.getLast?_eq_getLast (lbraceC :: xs) hne
    have hg : (lbraceC :: xs).getLast hne = rbraceC :=
      Option.some.inj (h1.symm.trans hlast)
    rw [hg]
    decide

/-- The first occurrence of a non-whitespace character sitting right
after an all-whitespace prefix is at the end of that prefix. -/
theorem findSub_first_after_ws (w mid : List Char) (c : Char)
    (hw : ∀ a ∈ w, isWs a = true) (hws : isWs c = false)
    (hhead : mid.head? = some c) :
    findSub [c] (w ++ mid) = some w.length := by
  rw [findSub_eq_some_iff]
  constructor
  · rw [List.drop_left, single_prefix_iff]
    exact hhead
  · intro j hj hpre
    rw [single_prefix_iff, List.head?_drop, List.getElem?_append_left hj] at hpre
    have hmem : c ∈ w := List.getElem?_mem hpre
    rw [hw c hmem] at hws
    cases hws

/-- The brace-scan branch on a payload that (after stripping) is
brace-delimited extracts the stripped payload. -/
theorem extract_plain {inner : List Char}
    (hnf : hasSub fence3 inner = false)
    (hhead : (pyStrip inner).head? = some lbraceC)
    (hlast : (pyStrip inner).getLast? = some rbraceC) :
    extractJsonStr inner = pyStrip inner := by
  have hfj : hasSub fenceJson inner = false := by
    by_contra h
    rw [Bool.not_eq_false] at h
    have h2 := hasSub_of_hasSub_of_prefix
      (show fence3 <+: fenceJson from ⟨['j', 's', 'o', 'n'], rfl⟩) h
    rw [hnf] at h2
    cases h2
  have hdec := strip_decomposition inner
  have hlen : inner.length =
      (wsLead inner).length + ((pyStrip inner).length + (wsTail inner).length) := by
    conv_lhs => rw [← hdec]
    simp [List.length_append]
  have hstne : pyStrip inner ≠ [] := by
    intro h
    rw [h] at hhead
    cases hhead
  have hstlen : 1 ≤ (pyStrip inner).length := by
    cases hst : pyStrip inner with
    | nil => exact absurd hst hstne
    | cons a l => simp
  have hfindl : findSub [lbraceC] inner = some (wsLead inner).length := by
    have h0 := findSub_first_after_ws (wsLead inner)
      (pyStrip inner ++ wsTail inner) lbraceC
      (fun a ha => wsLead_ws ha) (by decide)
      (by rw [List.head?_append, hhead]; rfl)
    rwa [hdec] at h0
  have hrev : inner.reverse =
      (wsTail inner).reverse ++ ((pyStrip inner).reverse ++ (wsLead inner).reverse) := by
    conv_lhs => rw [← hdec]
    simp [List.reverse_append]
  have hfindr : findSub [rbraceC] inner.reverse = some (wsTail inner).length := by
    have h0 := findSub_first_after_ws ((wsTail inner).reverse)
      ((pyStrip inner).reverse ++ (wsLead inner).reverse) rbraceC
      (fun a ha => wsTail_ws (List.mem_reverse.mp ha)) (by decide)
      (by rw [List.head?_append, List.head?_reverse, hlast]; rfl)
    rw [← hrev] at h0
    simpa using h0
  have hpfl : pyFind [lbraceC] inner = ((wsLead inner).length : Int) := by
    simp [pyFind, hfindl]
  have hprr : pyRfind [rbraceC] inner =
      (inner.length : Int) - 1 - (wsTail inner).length := by
    rw [pyRfind, show ([rbraceC] : List Char).reverse = [rbraceC] from rfl, hfindr]
    simp
  have ha : sliceIdx inner.length ((wsLead inner).length : Int) =
      (wsLead inner).length := by
    rw [sliceIdx, if_neg (not_lt.mpr (Int.natCast_nonneg _))]
    simp
    omega
  have hb : sliceIdx inner.length
      ((inner.length : Int) - 1 - (wsTail inner).length + 1) =
      (wsLead inner).length + (pyStrip inner).length := by
    rw [sliceIdx, if_neg (by omega)]
    omega
  have hslice : pySlice inner ((wsLead inner).length : Int)
      ((inner.length : Int) - 1 - (wsTail inner).length + 1) = pyStrip inner := by
    rw [pySlice, ha, hb]
    have hassoc : (wsLead inner ++ pyStrip inner) ++ wsTail inner = inner := by
      rw [List.append_assoc]
      exact hdec
    have htake : ∀ n, n = (wsLead inner).length + (pyStrip inner).length →
        inner.take n = wsLead inner ++ pyStrip inner := by
      intro n hn
      conv_lhs => rw [← hassoc]
      exact List.take_left' (by simp [hn])
    rw [htake _ rfl, List.drop_left]
  simp only [extractJsonStr, hfj, hnf, Bool.false_eq_true, if_false]
  rw [hpfl, hprr, hslice]
  exact pyStrip_of_braces hhead hlast

/-- C7 (amended): for a response that is a single `json`-labelled fenced
block and nothing else, extraction and parsing agree with the unfenced
payload provided the payload is a JSON *object* — its stripped form
starts with `{` and ends with `}` (and, as required for a well-formed
single block, the payload contains no fence of its own). For non-object
payloads such as a JSON array the two paths differ. -/
theorem extraction_fenced_amended {inner : List Char}
    (hnf : hasSub fence3 inner = false)
    (hhead : (pyStrip inner).head? = some lbraceC)
    (hlast : (pyStrip inner).getLast? = some rbraceC) :
    extractJsonStr (fenceWrap inner) = extractJsonStr inner ∧
    jsonParse (extractJsonStr (fenceWrap inner)) =
      jsonParse (extractJsonStr inner) := by
  have h1 := extract_of_fenceWrap hnf
  have h2 := extract_plain hnf hhead hlast
  rw [h1, h2]
  exact ⟨rfl, rfl⟩

/-- The object payload `{"a": 1}`. -/
def c7obj : List Char := [lbraceC, '"', 'a', '"', ':', ' ', '1', rbraceC]

theorem extraction_fenced_amended_witness :
    extractJsonStr (fenceWrap c7obj) = extractJsonStr c7obj ∧
    jsonParse (extractJsonStr (fenceWrap c7obj)) =
      jsonParse (extractJsonStr c7obj) :=
  extraction_fenced_amended (by decide) (by decide) (by decide)

/- ### Filesystem and tool registry (`tools.py`) -/

/-- The Python exceptions the embedding distinguishes. -/
inductive PyErr where
  | typeError : PyErr
  | unboundLocal : PyErr
  | attributeError : PyErr
deriving DecidableEq

/-- The sandbox: an association list from base-relative path strings to
stored character contents. Directories are not materialised, so
`mkdir(parents=True, exist_ok=True)` cannot fail in this model. -/
def FS : Type := List (String × List Char)

def fsLookup (fs : FS) (p : String) : Option (List Char) :=
  (fs.find? (fun kv => kv.1 == p)).map (·.2)

def fsWrite (fs : FS) (p : String) (c : List Char) : FS :=
  (p, c) :: fs.filter (fun kv => kv.1 != p)

/-- One canned web-search result. -/
structure SearchResult where
  title : List Char
  snippet : List Char
deriving DecidableEq

/-- Result dictionary shared by all tools; keys that a given tool does
not set are `none`. -/
structure ToolResult where
  success : Bool
  message : Option (List Char) := none
  content : Option (List Char) := none
  path : Option String := none
  files : Option (List String) := none
  count : Option Nat := none
  results : Option (List SearchResult) := none
  stdout : Option (List Char) := none
  stderr : Option (List Char) := none
  returncode : Option Int := none
deriving DecidableEq

namespace FilesystemTools

/-- `FilesystemTools.create_file` (`tools.py` lines 105-123): writes the
file under the sandbox root, creating parents. Text-mode writing maps
`'\n'` to `os.linesep`; the model fixes the POSIX `os.linesep = "\n"`,
under which the stored characters are the content unchanged. -/
def create_file (fs : FS) (file_path : String) (content : List Char) :
    FS × ToolResult :=
  (fsWrite fs file_path content,
   { success := true,
     message := some ("File created successfully: ".data ++ file_path.data),
     path := some file_path })

/-- Universal-newline decoding performed by text-mode `open(..., 'r')`
with the default `newline=None`: `\r\n` and lone `\r` both read as `\n`. -/
def univNL : List Char → List Char
  | [] => []
  | c :: rest =>
    if c = '\r' then
      match rest with
      | '\n' :: rest2 => '\n' :: univNL rest2
      | [] => ['\n']
      | d :: rest2 => '\n' :: univNL (d :: rest2)
    else c :: univNL rest

/-- `FilesystemTools.read_file` (`tools.py` lines 125-148). -/
def read_file (fs : FS) (file_path : String) : ToolResult :=
  match fsLookup fs file_path with
  | none =>
    { success := false,
      message := some ("File not found: ".data ++ file_path.data) }
  | some stored =>
    { success := true, content := some (univNL stored),
      path := some file_path }

/-- `FilesystemTools.list_files` (`tools.py` lines 150-176). Existence of
the directory and the recursive walk are interpreted over the path map:
a directory other than `"."` exists when some stored path lies under it. -/
def list_files (fs : FS) (directory : String) : ToolResult :=
  if directory == "." ||
      fs.any (fun kv => (directory ++ "/").data.isPrefixOf kv.1.data) then
    let names := (fs.map (·.1)).filter
      (fun p => directory == "." || (directory ++ "/").data.isPrefixOf p.data)
    { success := true, files := some names, count := some names.length }
  else
    { success := false,
      message := some ("Directory not found: ".data ++ directory.data) }

/-- `FilesystemTools.create_directory` (`tools.py` lines 178-193):
`mkdir(parents=True, exist_ok=True)` is idempotent and, in this model,
cannot fail. -/
def create_directory (fs : FS) (dir_path : String) : FS × ToolResult :=
  (fs,
   { success := true,
     message := some ("Directory created successfully: ".data ++ dir_path.data),
     path := some dir_path })

end FilesystemTools

namespace WebSearchTools

/-- ASCII lowering used to model `query.lower()`. -/
def lowerC (c : Char) : Char :=
  if 'A' ≤ c ∧ c ≤ 'Z' then Char.ofNat (c.toNat + 32) else c

/-- `WebSearchTools.web_search` (`tools.py` lines 236-284): canned
results keyed by substring match against the lowered query, with a
generic fallback. -/
def web_search (query : String) : ToolResult :=
  let q := query.data.map lowerC
  if hasSub "bootstrap".data q then
    { success := true,
      results := some [⟨"Bootstrap CDN".data,
        ("Latest Bootstrap CSS: https://cdn.jsdelivr.net/npm/" ++
          "bootstrap@5.3.0/dist/css/bootstrap.min.css").data⟩] }
  else if hasSub "jquery".data q then
    { success := true,
      results := some [⟨"jQuery CDN".data,
        "Latest jQuery: https://code.jquery.com/jquery-3.6.0.min.js".data⟩] }
  else if hasSub "arxiv api".data q then
    { success := true,
      results := some [⟨"arXiv API Documentation".data,
        ("arXiv API base URL: http://export.arxiv.org/api/query. " ++
          "Example: http://export.arxiv.org/api/query?search_query=" ++
          "cat:cs.AI&start=0&max_results=10").data⟩] }
  else
    { success := true,
      results := some [⟨("Search results for: ".data ++ query.data),
        ("Web search simulation - use appropriate CDN links and API " ++
          "endpoints for your implementation.").data⟩] }

end WebSearchTools

/-- Outcome of one subprocess run, supplied by a shell oracle. -/
inductive CmdOutcome where
  | finished (stdout stderr : List Char) (returncode : Int)
  | timedOut
  | failed (msg : List Char)

/-- A shell oracle: command string and timeout to outcome. -/
def ShellOracle : Type := String → Nat → CmdOutcome

namespace CodeExecutionTools

/-- `CodeExecutionTools.execute_command` (`tools.py` lines 326-363): an
all-whitespace command splits to no parts and is rejected; otherwise the
subprocess outcome decides the result (`success` iff exit code 0; a
timeout or execution error yields a failure message). The `safe_commands`
list in the source is computed but never consulted. -/
def execute_command (sh : ShellOracle) (command : String) (timeout : Nat) :
    ToolResult :=
  if (command.data.dropWhile isWs).isEmpty then
    { success := false, message := some "Empty command".data }
  else
    match sh command timeout with
    | .finished out err code =>
      { success := code == 0, stdout := some out, stderr := some err,
        returncode := some code }
    | .timedOut =>
      { success := false,
        message := some ("Command timed out after ".data ++
          (toString timeout).data ++ " seconds".data) }
    | .failed msg =>
      { success := false,
        message := some ("Error executing command: ".data ++ msg) }

end CodeExecutionTools

/-- Keyword binding of Python `handler(**arguments)` against a parameter
list (`(name, has_default)`): it raises `TypeError` exactly when some
argument key is not a parameter or some parameter without a default is
missing. -/
def splatOk (params : List (String × Bool)) (args : List (String × String)) :
    Bool :=
  (args.all fun kv => params.any fun p => p.1 == kv.1) &&
  (params.all fun p => p.2 || args.any fun kv => kv.1 == p.1)

/-- Value of key `k` in an arguments dictionary, with default `d`. -/
def argGetD (args : List (String × String)) (k d : String) : String :=
  match args.find? (fun kv => kv.1 == k) with
  | some kv => kv.2
  | none => d

/-- `FilesystemTools.execute_tool` (`tools.py` lines 195-209): dispatch
by name, keyword-splatting the arguments into the handler with no
exception handler around the splat. -/
def FilesystemTools.execute_tool (fs : FS) (tool_name : String)
    (arguments : List (String × String)) : Except PyErr (FS × ToolResult) :=
  if tool_name = "create_file" then
    if splatOk [("file_path", false), ("content", false)] arguments then
      .ok (FilesystemTools.create_file fs
        (argGetD arguments "file_path" "") (argGetD arguments "content" "").data)
    else .error .typeError
  else if tool_name = "read_file" then
    if splatOk [("file_path", false)] arguments then
      .ok (fs, FilesystemTools.read_file fs (argGetD arguments "file_path" ""))
    else .error .typeError
  else if tool_name = "list_files" then
    if splatOk [("directory", true)] arguments then
      .ok (fs, FilesystemTools.list_files fs (argGetD arguments "directory" "."))
    else .error .typeError
  else if tool_name = "create_directory" then
    if splatOk [("dir_path", false)] arguments then
      .ok (FilesystemTools.create_directory fs (argGetD arguments "dir_path" ""))
    else .error .typeError
  else
    .ok (fs,
      { success := false,
        message := some ("Unknown tool: ".data ++ tool_name.data) })

/-- `WebSearchTools.execute_tool` (`tools.py` lines 286-294). -/
def WebSearchTools.execute_tool (tool_name : String)
    (arguments : List (String × String)) : Except PyErr ToolResult :=
  if tool_name = "web_search" then
    if splatOk [("query", false)] arguments then
      .ok (WebSearchTools.web_search (argGetD arguments "query" ""))
    else .error .typeError
  else
    .ok
      { success := false,
        message := some ("Unknown tool: ".data ++ tool_name.data) }

/-- `CodeExecutionTools.execute_tool` (`tools.py` lines 365-373). The
`timeout` argument is an integer on the Python side; its textual value is
re-read as a number here. -/
def CodeExecutionTools.execute_tool (sh : ShellOracle) (tool_name : String)
    (arguments : List (String × String)) : Except PyErr ToolResult :=
  if tool_name = "execute_command" then
    if splatOk [("command", false), ("timeout", true)] arguments then
      .ok (CodeExecutionTools.execute_command sh
        (argGetD arguments "command" "")
        ((argGetD arguments "timeout" "30").toNat?.getD 30))
    else .error .typeError
  else
    .ok
      { success := false,
        message := some ("Unknown tool: ".data ++ tool_name.data) }

/-- `ToolManager.execute_tool` (`tools.py` lines 401-411): consult the
`tool_map`, return a `success=false` result for unknown names, and
otherwise delegate to the owning toolkit — whose own dispatch then
splats the arguments. -/
def ToolManager.execute_tool (fs : FS) (sh : ShellOracle) (tool_name : String)
    (arguments : List (String × String)) : Except PyErr (FS × ToolResult) :=
  if tool_name = "create_file" ∨ tool_name = "read_file" ∨
      tool_name = "list_files" ∨ tool_name = "create_directory" then
    FilesystemTools.execute_tool fs tool_name arguments
  else if tool_name = "web_search" then
    (WebSearchTools.execute_tool tool_name arguments).map (fun r => (fs, r))
  else if tool_name = "execute_command" then
    (CodeExecutionTools.execute_tool sh tool_name arguments).map (fun r => (fs, r))
  else
    .ok (fs,
      { success := false,
        message := some ("Unknown tool: ".data ++ tool_name.data) })

/-- The empty sandbox. -/
def emptyFS : FS := []

/-- A shell oracle for witnesses. -/
def shTimeout : ShellOracle := fun _ _ => CmdOutcome.timedOut

/-- C3 counterexample: content containing a lone carriage return does
not round-trip byte-for-byte — universal-newline decoding on text-mode
read turns the `\r` into `\n`. -/
theorem create_read_roundtrip_counterexample :
    (FilesystemTools.read_file
      (FilesystemTools.create_file emptyFS "a.txt" ['a', '\r', 'b']).1
      "a.txt").content = some ['a', '\n', 'b'] ∧
    (['a', '\n', 'b'] : List Char) ≠ ['a', '\r', 'b'] :=
  ⟨rfl, by decide⟩

/-- The content holds no carriage return. -/
def noCR (content : List Char) : Prop := ∀ c ∈ content, c ≠ '\r'

theorem univNL_eq_self {content : List Char} (h : noCR content) :
    FilesystemTools.univNL content = content := by
  induction content with
  | nil => rfl
  | cons c rest ih =>
    have hc : c ≠ '\r' := h c (List.mem_cons_self c rest)
    have hr : noCR rest := fun a ha => h a (List.mem_cons_of_mem _ ha)
    unfold FilesystemTools.univNL
    rw [if_neg hc, ih hr]

theorem fsLookup_fsWrite (fs : FS) (p : String) (c : List Char) :
    fsLookup (fsWrite fs p c) p = some c := by
  simp [fsLookup, fsWrite, List.find?]

/-- C3 (amended): for every path and every content free of carriage
returns (newlines and other unicode included), the write succeeds and
the read-back returns the content exactly. -/
theorem create_read_roundtrip_amended (fs : FS) (file_path : String)
    (content : List Char) (h : noCR content) :
    (FilesystemTools.create_file fs file_path content).2.success = true ∧
    FilesystemTools.read_file
        (FilesystemTools.create_file fs file_path content).1 file_path =
      { success := true, content := some content, path := some file_path } := by
  refine ⟨rfl, ?_⟩
  simp only [FilesystemTools.read_file, FilesystemTools.create_file,
    fsLookup_fsWrite, univNL_eq_self h]

theorem create_read_roundtrip_amended_witness :
    (FilesystemTools.create_file emptyFS "notes/readme.md"
      "héllo\nwörld".data).2.success = true ∧
    FilesystemTools.read_file
        (FilesystemTools.create_file emptyFS "notes/readme.md"
          "héllo\nwörld".data).1 "notes/readme.md" =
      { success := true, content := some "héllo\nwörld".data,
        path := some "notes/readme.md" } :=
  create_read_roundtrip_amended emptyFS "notes/readme.md" "héllo\nwörld".data
    (by unfold noCR; decide)

/-- C8: reading a path that is not in the sandbox returns a non-raising
failure result whose message contains the substring "not found". -/
theorem read_file_not_found (fs : FS) (file_path : String)
    (h : fsLookup fs file_path = none) :
    FilesystemTools.read_file fs file_path =
      { success := false,
        message := some ("File not found: ".data ++ file_path.data) } ∧
    hasSub "not found".data ("File not found: ".data ++ file_path.data) = true := by
  constructor
  · simp only [FilesystemTools.read_file, h]
  · exact hasSub_append_left (by decide)

theorem read_file_not_found_witness :
    FilesystemTools.read_file emptyFS "missing.txt" =
      { success := false,
        message := some ("File not found: ".data ++ "missing.txt".data) } ∧
    hasSub "not found".data ("File not found: ".data ++ "missing.txt".data) = true :=
  read_file_not_found emptyFS "missing.txt" rfl

/-- C9: the arguments mapping is keyword-splatted into the handler
outside any exception handler, so `ToolManager.execute_tool` on the
known tool `create_file` raises `TypeError` when a required key is
missing or an unexpected key is present; only unknown tool names are
guaranteed a `success=false` result. -/
theorem execute_tool_typeerror (fs : FS) (sh : ShellOracle) :
    ToolManager.execute_tool fs sh "create_file" [("content", "x")] =
      .error .typeError ∧
    ToolManager.execute_tool fs sh "create_file"
      [("file_path", "a"), ("content", "b"), ("mode", "w")] =
      .error .typeError ∧
    (∀ tool_name args, tool_name ∉ ["create_file", "read_file", "list_files",
        "create_directory", "web_search", "execute_command"] →
      ToolManager.execute_tool fs sh tool_name args =
        .ok (fs,
          { success := false,
            message := some ("Unknown tool: ".data ++ tool_name.data) })) := by
  refine ⟨rfl, rfl, ?_⟩
  intro tool_name args hname
  simp only [List.mem_cons, List.not_mem_nil, or_false] at hname
  push_neg at hname
  obtain ⟨h1, h2, h3, h4, h5, h6⟩ := hname
  rw [ToolManager.execute_tool,
    if_neg (by rintro (h | h | h | h) <;> simp_all), if_neg h5, if_neg h6]

theorem execute_tool_typeerror_witness :
    ToolManager.execute_tool emptyFS shTimeout "create_file" [("content", "x")] =
      .error .typeError ∧
    ToolManager.execute_tool emptyFS shTimeout "create_file"
      [("file_path", "a"), ("content", "b"), ("mode", "w")] =
      .error .typeError ∧
    ToolManager.execute_tool emptyFS shTimeout "bogus_tool" [] =
      .ok (emptyFS,
        { success := false,
          message := some ("Unknown tool: ".data ++ "bogus_tool".data) }) :=
  ⟨(execute_tool_typeerror emptyFS shTimeout).1,
   (execute_tool_typeerror emptyFS shTimeout).2.1,
   (execute_tool_typeerror emptyFS shTimeout).2.2 "bogus_tool" [] (by decide)⟩

/- ### Gateway retry wrapper (`llm_client.py` lines 121-163) -/

/-- The result envelope of one `chat_completion` call, as far as callers
inspect it. -/
structure ChatResponse where
  success : Bool
  content : Option (List Char) := none
  tool_calls : List ParsedToolCall := []
  error : Option (List Char) := none

/-- The retry loop of `retry_chat_completion`, instrumented with the
sleeps performed (delays in seconds as exact rationals) and the number
of attempts made. `r` counts the loop iterations still permitted and `k`
the attempts already made. After the loop, `return result` with no
attempt ever made raises `UnboundLocalError`. -/
def retryGo (attempt : Nat → ChatResponse) (d : ℚ) :
    Nat → Nat → List ℚ → List ℚ × Nat × Except PyErr ChatResponse
  | 0, k, sleeps =>
    (sleeps, k, if k = 0 then .error .unboundLocal else .ok (attempt (k - 1)))
  | r + 1, k, sleeps =>
    let res := attempt k
    if res.success then (sleeps, k + 1, .ok res)
    else if r = 0 then (sleeps, k + 1, .ok res)
    else retryGo attempt d r (k + 1) (sleeps ++ [d * ((k + 1 : Nat) : ℚ)])

/-- `LLMClient.retry_chat_completion` (`llm_client.py` lines 146-163):
up to `max_retries` attempts, returning on the first success, sleeping
`retry_delay * (attempt + 1)` after a failed attempt that is not the
last, and returning the last result otherwise. -/
def retry_chat_completion (attempt : Nat → ChatResponse) (max_retries : Nat)
    (retry_delay : ℚ) : List ℚ × Nat × Except PyErr ChatResponse :=
  retryGo attempt retry_delay max_retries 0 []

/-- C5 counterexample: with `max_retries = 0` the loop body never runs
and `return result` raises `UnboundLocalError` instead of returning any
attempt's result. -/
theorem retry_zero_counterexample :
    (retry_chat_completion (fun _ => { success := true }) 0 1).2.2 =
      .error .unboundLocal := rfl

theorem retryGo_spec (attempt : Nat → ChatResponse) (d : ℚ) :
    ∀ r k sleeps, 1 ≤ r →
    (∀ i, i < k → (attempt i).success = false) →
    sleeps = (List.range k).map (fun j => d * ((j + 1 : Nat) : ℚ)) →
    k + 1 ≤ (retryGo attempt d r k sleeps).2.1 ∧
    (retryGo attempt d r k sleeps).2.1 ≤ k + r ∧
    (retryGo attempt d r k sleeps).2.2 =
      .ok (attempt ((retryGo attempt d r k sleeps).2.1 - 1)) ∧
    (∀ i, i < (retryGo attempt d r k sleeps).2.1 - 1 →
      (attempt i).success = false) ∧
    ((attempt ((retryGo attempt d r k sleeps).2.1 - 1)).success = true ∨
      (retryGo attempt d r k sleeps).2.1 = k + r) ∧
    (retryGo attempt d r k sleeps).1 =
      (List.range ((retryGo attempt d r k sleeps).2.1 - 1)).map
        (fun j => d * ((j + 1 : Nat) : ℚ)) := by
  intro r
  induction r with
  | zero => intro k sleeps hr; omega
  | succ r ih =>
    intro k sleeps hr hinv hsl
    by_cases hres : (attempt k).success = true
    · rw [show retryGo attempt d (r + 1) k sleeps = (sleeps, k + 1, .ok (attempt k))
        from by rw [retryGo, if_pos hres]]
      dsimp only
      refine ⟨le_refl _, by omega, rfl, ?_, Or.inl (by simpa using hres), by simpa using hsl⟩
      intro i hi
      exact hinv i (by omega)
    · have hres' : (attempt k).success = false := by
        cases hb : (attempt k).success
        · rfl
        · exact absurd hb hres
      cases hr0 : r with
      | zero =>
        rw [show retryGo attempt d (0 + 1) k sleeps = (sleeps, k + 1, .ok (attempt k))
          from by rw [retryGo, if_neg hres, if_pos rfl]]
        dsimp only
        refine ⟨le_refl _, by omega, rfl, ?_, Or.inr (by omega), by simpa using hsl⟩
        intro i hi
        exact hinv i (by omega)
      | succ r' =>
        have hstep : retryGo attempt d (r' + 1 + 1) k sleeps =
            retryGo attempt d (r' + 1) (k + 1)
              (sleeps ++ [d * ((k + 1 : Nat) : ℚ)]) := by
          rw [retryGo, if_neg hres, if_neg (by omega)]
        rw [hstep]
        have hinv' : ∀ i, i < k + 1 → (attempt i).success = false := by
          intro i hi
          rcases Nat.lt_succ_iff_lt_or_eq.mp hi with h | h
          · exact hinv i h
          · rw [h]
            exact hres'
        have hsl' : sleeps ++ [d * ((k + 1 : Nat) : ℚ)] =
            (List.range (k + 1)).map (fun j => d * ((j + 1 : Nat) : ℚ)) := by
          rw [List.range_succ, List.map_append, ← hsl]
          rfl
        have hout := ih (k + 1) (sleeps ++ [d * ((k + 1 : Nat) : ℚ)])
          (by omega) hinv' hsl'
        subst hr0
        exact ⟨by omega, by omega, hout.2.2.1, hout.2.2.2.1,
          by rcases hout.2.2.2.2.1 with h | h
             · exact Or.inl h
             · exact Or.inr (by omega),
          hout.2.2.2.2.2⟩

/-- C5 (amended): for `max_retries = N ≥ 1`, the wrapper performs at
most `N` attempts, stops at the first success, sleeps exactly
`retry_delay * k` seconds between attempt `k` and attempt `k + 1`
(linear, no jitter), and returns the most recent attempt's result
whether success or failure. For `N = 0` the code instead raises
`UnboundLocalError`. -/
theorem retry_chat_completion_spec (attempt : Nat → ChatResponse)
    (N : Nat) (d : ℚ) (hN : 1 ≤ N) :
    1 ≤ (retry_chat_completion attempt N d).2.1 ∧
    (retry_chat_completion attempt N d).2.1 ≤ N ∧
    (retry_chat_completion attempt N d).2.2 =
      .ok (attempt ((retry_chat_completion attempt N d).2.1 - 1)) ∧
    (∀ i, i < (retry_chat_completion attempt N d).2.1 - 1 →
      (attempt i).success = false) ∧
    ((attempt ((retry_chat_completion attempt N d).2.1 - 1)).success = true ∨
      (retry_chat_completion attempt N d).2.1 = N) ∧
    (retry_chat_completion attempt N d).1 =
      (List.range ((retry_chat_completion attempt N d).2.1 - 1)).map
        (fun j => d * ((j + 1 : Nat) : ℚ)) := by
  have h := retryGo_spec attempt d N 0 [] hN
    (fun i hi => absurd hi (Nat.not_lt_zero i)) (by simp)
  simpa [retry_chat_completion] using h

/-- A backend oracle whose first attempt fails and later attempts
succeed. -/
def attemptFlaky : Nat → ChatResponse :=
  fun i => if i = 0 then { success := false } else { success := true }

theorem retry_chat_completion_spec_witness :
    1 ≤ (retry_chat_completion attemptFlaky 3 1).2.1 ∧
    (retry_chat_completion attemptFlaky 3 1).2.1 ≤ 3 ∧
    (retry_chat_completion attemptFlaky 3 1).2.2 =
      .ok (attemptFlaky ((retry_chat_completion attemptFlaky 3 1).2.1 - 1)) ∧
    (∀ i, i < (retry_chat_completion attemptFlaky 3 1).2.1 - 1 →
      (attemptFlaky i).success = false) ∧
    ((attemptFlaky ((retry_chat_completion attemptFlaky 3 1).2.1 - 1)).success = true ∨
      (retry_chat_completion attemptFlaky 3 1).2.1 = 3) ∧
    (retry_chat_completion attemptFlaky 3 1).1 =
      (List.range ((retry_chat_completion attemptFlaky 3 1).2.1 - 1)).map
        (fun j => (1 : ℚ) * ((j + 1 : Nat) : ℚ)) :=
  retry_chat_completion_spec attemptFlaky 3 1 (by decide)

/- ### Coder tool-calling loop (`agents.py` lines 338-458) -/

/-- How the coding loop exited. This is an observer field; the `success`
flag of the returned dictionary is determined by the same branch of the
source. -/
inductive CoderExit where
  | gatewayFailure : CoderExit
  | noToolCalls : CoderExit
  | ceiling : CoderExit
  | exception : CoderExit
deriving DecidableEq

/-- Result dictionary of `CodeGenerationAgent.execute`; the failure path
carries no `iterations` key. Tracked created files are the values of
`tool_args.get("file_path")` from successful `create_file` calls — an
absent key appends Python `None`, hence the `Option`. -/
structure CodingResult where
  success : Bool
  created_files : List (Option Json)
  iterations : Option Nat := none
  error : Option (List Char) := none

structure CoderOutcome where
  gatewayCalls : Nat
  exit : CoderExit
  result : Except PyErr CodingResult

/-- Abstract tool execution through the registry (state included); an
`Except.error` models an exception propagating out of the loop. -/
def ToolExec : Type := String → Json → Except PyErr ToolResult

/-- Execute every tool call of one assistant turn in order
(`agents.py` lines 433-451), tracking created files. Calling
`.get("file_path")` on non-mapping arguments raises `AttributeError`. -/
def execTools (te : ToolExec) :
    List ParsedToolCall → List (Option Json) → Except PyErr (List (Option Json))
  | [], created => .ok created
  | tc :: rest, created =>
    match te tc.name tc.arguments with
    | .error e => .error e
    | .ok result =>
      if tc.name == "create_file" && result.success then
        match tc.arguments with
        | .obj ms =>
          execTools te rest
            (created ++ [(ms.find? (fun kv => kv.1 == "file_path".data)).map (·.2)])
        | _ => .error .attributeError
      else execTools te rest created

/-- The `while iteration < max_iterations` loop of
`CodeGenerationAgent.execute` (`agents.py` lines 374-451). `r` is the
remaining iteration budget, `k` the iterations already performed and
`calls` the gateway calls already made. -/
def coderGo (oracle : Nat → ChatResponse) (te : ToolExec) :
    Nat → Nat → List (Option Json) → Nat → CoderOutcome
  | 0, k, created, calls =>
    { gatewayCalls := calls, exit := .ceiling,
      result := .ok
        { success := true, created_files := created, iterations := some k } }
  | r + 1, k, created, calls =>
    if (oracle k).success = false then
      { gatewayCalls := calls + 1, exit := .gatewayFailure,
        result := .ok
          { success := false, created_files := created,
            error := (oracle k).error } }
    else if (oracle k).tool_calls.isEmpty then
      { gatewayCalls := calls + 1, exit := .noToolCalls,
        result := .ok
          { success := true, created_files := created,
            iterations := some (k + 1) } }
    else
      match execTools te (oracle k).tool_calls created with
      | .error e =>
        { gatewayCalls := calls + 1, exit := .exception, result := .error e }
      | .ok created2 => coderGo oracle te r (k + 1) created2 (calls + 1)

/-- `CodeGenerationAgent.execute` (`agents.py` lines 370-458) with its
literal ceiling `max_iterations = 10`. The gateway is an oracle indexed
by the call number, so the prompt construction and the transcript
bookkeeping of lines 397-451 — consumed only by that gateway, with
prompt text out of scope — do not appear. -/
def CodeGenerationAgent.execute (oracle : Nat → ChatResponse)
    (te : ToolExec) : CoderOutcome :=
  coderGo oracle te 10 0 [] 0

/-- C4: for every backend behaviour and every tool behaviour, the coding
loop makes at most 10 gateway calls, and when it exits by reaching the
iteration ceiling its result still has `success = true` (carrying the
accumulated created files), not a failure. -/
theorem coder_loop_bounded (oracle : Nat → ChatResponse) (te : ToolExec) :
    (CodeGenerationAgent.execute oracle te).gatewayCalls ≤ 10 ∧
    ((CodeGenerationAgent.execute oracle te).exit = .ceiling →
      ∃ r, (CodeGenerationAgent.execute oracle te).result = .ok r ∧
        r.success = true) := by
  have key : ∀ fuel k created calls,
      (coderGo oracle te fuel k created calls).gatewayCalls ≤ calls + fuel ∧
      ((coderGo oracle te fuel k created calls).exit = .ceiling →
        ∃ r, (coderGo oracle te fuel k created calls).result = .ok r ∧
          r.success = true) := by
    intro fuel
    induction fuel with
    | zero =>
      intro k created calls
      exact ⟨Nat.le_refl _, fun _ => ⟨_, rfl, rfl⟩⟩
    | succ r ih =>
      intro k created calls
      rw [coderGo]
      by_cases h1 : (oracle k).success = false
      · rw [if_pos h1]
        exact ⟨by dsimp only; omega, fun h => CoderExit.noConfusion h⟩
      · rw [if_neg h1]
        by_cases h2 : (oracle k).tool_calls.isEmpty
        · rw [if_pos h2]
          exact ⟨by dsimp only; omega, fun h => CoderExit.noConfusion h⟩
        · rw [if_neg h2]
          cases hexec : execTools te (oracle k).tool_calls created with
          | error e =>
            exact ⟨by dsimp only; omega, fun h => CoderExit.noConfusion h⟩
          | ok created2 =>
            dsimp only
            have hout := ih (k + 1) created2 (calls + 1)
            exact ⟨by omega, hout.2⟩
  simpa [CodeGenerationAgent.execute] using key 10 0 [] 0

/-- A backend that always requests one more tool call, driving the loop
into its ceiling. -/
def oracleBusy : Nat → ChatResponse :=
  fun _ =>
    { success := true,
      tool_calls := [⟨"c", "function", "create_file", Json.obj []⟩] }

/-- A registry stub whose calls always succeed. -/
def teOk : ToolExec := fun _ _ => .ok { success := true }

theorem coder_loop_bounded_witness :
    (CodeGenerationAgent.execute oracleBusy teOk).exit = .ceiling ∧
    ((CodeGenerationAgent.execute oracleBusy teOk).gatewayCalls ≤ 10 ∧
      ∃ r, (CodeGenerationAgent.execute oracleBusy teOk).result = .ok r ∧
        r.success = true) :=
  ⟨rfl, (coder_loop_bounded oracleBusy teOk).1,
    (coder_loop_bounded oracleBusy teOk).2 rfl⟩

/- ### Orchestrator (`orchestrator.py`) -/

/-- One issue inside an evaluation. -/
structure Issue where
  severity : String
deriving DecidableEq

structure Evaluation where
  overall_quality : String
  issues : List Issue
deriving DecidableEq

/-- A plan task, with the fields the orchestrator reads. -/
structure PlanTask where
  task_id : String
  title : String
  files : List String
deriving DecidableEq

structure Plan where
  tasks : List PlanTask
deriving DecidableEq

/-- The coder's per-task result as the orchestrator consumes it. -/
structure TaskCodingResult where
  success : Bool
  created_files : List String
deriving DecidableEq

structure DebugResult where
  success : Bool
  fixed_files : List String
deriving DecidableEq

/-- Stubbed agents of one run: the planner's parsed plan (`none` is a
planning failure), the coder per task, the evaluator per task (`none` is
an evaluation failure) and the debugger. -/
structure Stubs where
  planner : Option Plan
  coder : PlanTask → TaskCodingResult
  evaluator : PlanTask → Option Evaluation
  debugger : DebugResult

/-- How often each agent was invoked during a run. -/
structure Counts where
  planner : Nat
  coder : Nat
  evaluator : Nat
  debugger : Nat
deriving DecidableEq

/-- The result dictionary built by `_build_result` (`orchestrator.py`
lines 310-331); the timing fields are omitted. -/
structure RunResult where
  success : Bool
  status : String
  plan : Option Plan
  tasks_completed : List String
  files_created : List String
  total_files : Nat
  evaluations : List Evaluation
  iterations : Nat
  error : Option String := none
deriving DecidableEq

/-- `_execute_coding` (`orchestrator.py` lines 156-189): the coder runs
on every pending task in declaration order; a success appends the task
id and extends the created-file list, a failure is logged and skipped.
Returns completed ids, created files, and coder invocations. -/
def execute_coding (coder : PlanTask → TaskCodingResult)
    (tasks : List PlanTask) : List String × List String × Nat :=
  tasks.foldl
    (fun acc task =>
      let r := coder task
      if r.success then
        (acc.1 ++ [task.task_id], acc.2.1 ++ r.created_files, acc.2.2 + 1)
      else (acc.1, acc.2.1, acc.2.2 + 1))
    ([], [], 0)

/-- `_execute_evaluation` (`orchestrator.py` lines 191-233): with no
created files the phase returns at once; otherwise every completed task
id is looked up in the plan, tasks missing from the plan or declaring no
files are skipped, and each successful evaluation is appended. Returns
the updated evaluation list and the evaluator invocation count. -/
def execute_evaluation (evaluator : PlanTask → Option Evaluation)
    (plan : Plan) (tasks_completed : List String)
    (all_created_files : List String) (evaluations : List Evaluation) :
    List Evaluation × Nat :=
  if all_created_files.isEmpty then (evaluations, 0)
  else
    tasks_completed.foldl
      (fun acc task =>
        match plan.tasks.find? (fun t => t.task_id == task) with
        | none => acc
        | some task_obj =>
          if task_obj.files.isEmpty then acc
          else
            match evaluator task_obj with
            | some e => (acc.1 ++ [e], acc.2 + 1)
            | none => (acc.1, acc.2 + 1))
      (evaluations, 0)

/-- `_execute_debugging` (`orchestrator.py` lines 235-279): skipped when
no files were created; otherwise the debugger runs once and, on success,
fixed files not already present are appended (exact string match). -/
def execute_debugging (debugger : DebugResult)
    (all_created_files : List String) : List String × Nat :=
  if all_created_files.isEmpty then (all_created_files, 0)
  else if debugger.success then
    (debugger.fixed_files.foldl
      (fun acc f => if f ∈ acc then acc else acc ++ [f]) all_created_files, 1)
  else (all_created_files, 1)

/-- `_should_iterate` (`orchestrator.py` lines 281-295). -/
def should_iterate (evaluations : List Evaluation) : Bool :=
  evaluations.any fun e =>
    e.overall_quality == "poor" ||
    !(e.issues.filter (fun i => i.severity == "critical")).isEmpty

/-- `MultiAgentOrchestrator.execute` (`orchestrator.py` lines 77-141)
from a fresh (constructor / `reset`) state: planning — whose failure is
fatal before any other phase runs — then coding, evaluation, debugging,
the inert iterate decision, which increments the counter without
re-running any phase, and completion. Returns the `_build_result`
dictionary and the per-agent invocation counts. -/
def execute (st : Stubs) (max_iterations : Nat) : RunResult × Counts :=
  match st.planner with
  | none =>
    ({ success := false, status := "failed", plan := none,
       tasks_completed := [], files_created := [], total_files := 0,
       evaluations := [], iterations := 0, error := some "Planning failed" },
     { planner := 1, coder := 0, evaluator := 0, debugger := 0 })
  | some plan =>
    let coded := execute_coding st.coder plan.tasks
    let evald := execute_evaluation st.evaluator plan coded.1 coded.2.1 []
    let debugged := execute_debugging st.debugger coded.2.1
    let iters := if should_iterate evald.1 ∧ 0 < max_iterations then 1 else 0
    ({ success := true, status := "completed", plan := some plan,
       tasks_completed := coded.1, files_created := debugged.1,
       total_files := debugged.1.length, evaluations := evald.1,
       iterations := iters },
     { planner := 1, coder := coded.2.2, evaluator := evald.2,
       debugger := debugged.2 })

/-- The single task of the scenario-B stub plan. -/
def taskT1 : PlanTask :=
  { task_id := "T1", title := "Build index page", files := ["index.html"] }

/-- Scenario-B stubs: one task, created file, evaluation "poor". -/
def stubsB : Stubs :=
  { planner := some { tasks := [taskT1] },
    coder := fun t => { success := true, created_files := t.files },
    evaluator := fun _ => some { overall_quality := "poor", issues := [] },
    debugger := { success := true, fixed_files := [] } }

/-- C1 counterexample: a run whose evaluations make the should-iterate
decision true with the counter 0 below the ceiling 3 still completes —
but its `iterations` field is 1, not 0: the inert hook increments the
counter once. -/
theorem execute_iterate_counterexample :
    should_iterate (execute stubsB 3).1.evaluations = true ∧
    0 < 3 ∧
    (execute stubsB 3).1.status = "completed" ∧
    (execute stubsB 3).1.iterations = 1 ∧
    (execute stubsB 3).1.iterations ≠ 0 :=
  ⟨rfl, by decide, rfl, rfl, by decide⟩

/-- C1 (amended): whenever the accumulated evaluations make the
should-iterate decision true and the counter 0 is below the configured
ceiling, `execute` still finishes with status `"completed"` and
`success = true`, but the returned `iterations` field is 1 — the inert
hook increments the counter exactly once even though no phase is
re-executed. -/
theorem execute_iterate_amended (st : Stubs) (m : Nat)
    (hit : should_iterate (execute st m).1.evaluations = true) (hm : 0 < m) :
    (execute st m).1.status = "completed" ∧
    (execute st m).1.success = true ∧
    (execute st m).1.iterations = 1 := by
  cases hp : st.planner with
  | none =>
    simp [execute, hp, should_iterate] at hit
  | some plan =>
    simp only [execute, hp] at hit ⊢
    refine ⟨trivial, trivial, ?_⟩
    rw [if_pos ⟨hit, hm⟩]

theorem execute_iterate_amended_witness :
    should_iterate (execute stubsB 3).1.evaluations = true ∧
    (execute stubsB 3).1.status = "completed" ∧
    (execute stubsB 3).1.success = true ∧
    (execute stubsB 3).1.iterations = 1 :=
  ⟨rfl, execute_iterate_amended stubsB 3 rfl (by decide)⟩

/-- C6: a planning failure is fatal — the run fails with status
`"failed"` and the coder, evaluator and debugger are never invoked. -/
theorem execute_planning_failure (st : Stubs) (m : Nat)
    (h : st.planner = none) :
    (execute st m).1.success = false ∧
    (execute st m).1.status = "failed" ∧
    (execute st m).2.coder = 0 ∧
    (execute st m).2.evaluator = 0 ∧
    (execute st m).2.debugger = 0 := by
  rw [execute, h]
  exact ⟨rfl, rfl, rfl, rfl, rfl⟩

/-- Stubs whose planner returns unparsable text. -/
def stubsC : Stubs :=
  { planner := none,
    coder := fun t => { success := true, created_files := t.files },
    evaluator := fun _ => none,
    debugger := { success := true, fixed_files := [] } }

theorem execute_planning_failure_witness :
    (execute stubsC 3).1.success = false ∧
    (execute stubsC 3).1.status = "failed" ∧
    (execute stubsC 3).2.coder = 0 ∧
    (execute stubsC 3).2.evaluator = 0 ∧
    (execute stubsC 3).2.debugger = 0 :=
  execute_planning_failure stubsC 3 rfl

/-- C10: with an empty created-file list the evaluation phase returns at
once — zero evaluator invocations and no appended evaluations — for
every plan, every completed-task list (even one whose tasks declare
files) and every prior evaluation list. -/
theorem execute_evaluation_no_files (evaluator : PlanTask → Option Evaluation)
    (plan : Plan) (tasks_completed : List String)
    (evaluations : List Evaluation) :
    execute_evaluation evaluator plan tasks_completed [] evaluations =
      (evaluations, 0) := rfl
